import Mathlib

/-!
# Verification of the SQL Server activity sampler

Shallow embedding of `sqlserver/datadog_checks/sqlserver/activity.py`
(the `SqlserverActivity` job) and proofs about it.

Modelling conventions:
* A result-set row is an insertion-ordered mapping from column name to a
  scalar value, embedded as an association list `Row`.
* Timestamps (the `start_time` and `transaction_begin_time` columns, and
  the job's `_activity_last_query_start` watermark) are integers; the
  columns are datetime-or-NULL in the engine schema, and only their order
  and differences matter here.
* The external collaborators `datadog_agent.obfuscate_sql` and
  `compute_sql_signature` are parameters `obf` and `sig`; a `none` result
  models the collaborator raising an exception.
* A Python `dict` lookup on a missing key raises `KeyError`; functions
  that can raise are embedded with an `Option` result, `none` meaning an
  uncaught exception.
-/

/-- A scalar cell value as produced by the database driver: SQL NULL,
a string, an integer (also used for timestamps), or a binary blob. -/
inductive Val where
  | vNull : Val
  | vStr : String → Val
  | vInt : Int → Val
  | vBytes : List Nat → Val
deriving DecidableEq

/-- A result row: an insertion-ordered mapping column-name → value,
as built by `dict(zip(columns, row))` in `_get_activity`. -/
abbrev Row : Type := List (String × Val)

/-- Python `row[key]`: the value bound to `key`, or `none` when the key is
absent (in Python a `KeyError`). -/
def Row.get? : Row → String → Option Val
  | [], _ => none
  | (k, v) :: r, key => if k = key then some v else Row.get? r key

/-- Python `row[key] = v`: replace the value in place when the key exists
(dict keys are unique, so at most one binding matches), otherwise append
the new binding at the end (dict insertion order). -/
def Row.set : Row → String → Val → Row
  | [], key, v => [(key, v)]
  | (k, w) :: r, key, v =>
      if k = key then (key, v) :: r else (k, w) :: Row.set r key v

/-- The module constant `dm_exec_requests_exclude_keys`: engine-internal
handle columns stripped from every reported row. -/
def dm_exec_requests_exclude_keys : List String :=
  ["sql_handle", "plan_handle", "statement_sql_handle", "task_address",
   "page_resource", "scheduler_id", "context_info"]

/-- Lowercase hex digit for a nibble, as produced by `binascii.hexlify`. -/
def hexDigit (n : Nat) : Char :=
  if n < 10 then Char.ofNat (48 + n) else Char.ofNat (87 + n)

/-- The character sequence of `binascii.hexlify`: two lowercase hex digits
per byte, in order. -/
def hexChars : List Nat → List Char
  | [] => []
  | b :: bs => hexDigit (b / 16 % 16) :: hexDigit (b % 16) :: hexChars bs

/-- `_hash_to_hex`: `binascii.hexlify` of a binary value decoded to a
native string. -/
def hash_to_hex (bs : List Nat) : String :=
  String.mk (hexChars bs)

/-- Python `str` of one cell value, used only through `len(str(row))` in
`_get_estimated_row_size_bytes`. Strings are rendered between single
quotes (codepoint 39) without escaping — column names and the statement
texts considered here contain no quote, backslash or control characters.
Bytes are rendered like Python `bytes.__repr__`, with `\t`, `\n`, `\r`,
quote and backslash escaped and non-printable bytes as `\xhh`. -/
def Val.pyStr : Val → String
  | Val.vNull => "None"
  | Val.vStr s => String.mk (Char.ofNat 39 :: s.data ++ [Char.ofNat 39])
  | Val.vInt n => toString n
  | Val.vBytes bs =>
      String.mk ([Char.ofNat 98, Char.ofNat 39] ++
        (bs.map (fun b =>
          if b = 9 then [Char.ofNat 92, Char.ofNat 116]
          else if b = 10 then [Char.ofNat 92, Char.ofNat 110]
          else if b = 13 then [Char.ofNat 92, Char.ofNat 114]
          else if b = 39 then [Char.ofNat 92, Char.ofNat 39]
          else if b = 92 then [Char.ofNat 92, Char.ofNat 92]
          else if 32 ≤ b ∧ b < 127 then [Char.ofNat b]
          else [Char.ofNat 92, Char.ofNat 120, hexDigit (b / 16 % 16), hexDigit (b % 16)])).flatten
        ++ [Char.ofNat 39])

/-- Python `str` of a whole row dict: `\x7b'k1': v1, 'k2': v2\x7d`. -/
def Row.pyStr (r : Row) : String :=
  "\x7b" ++ String.intercalate ", "
    (r.map (fun kv => (Val.vStr kv.1).pyStr ++ ": " ++ kv.2.pyStr)) ++ "\x7d"

/-- `_get_estimated_row_size_bytes`: `len(str(row))`. -/
def get_estimated_row_size_bytes (r : Row) : Nat :=
  (Row.pyStr r).length

/-- The module constant `MAX_PAYLOAD_BYTES` (`19e6`), as an integer byte
count. -/
def maxPayloadBytes : Nat := 19000000

/-- The sentinel statement text substituted when obfuscation fails. -/
def sentinelText : String := "ERROR: failed to obfuscate"

/-- `_set_last_activity`: reads `row['start_time']` (raising, hence
`none`, when the key is absent) and returns the advanced watermark.
`start_time` is datetime-or-NULL in the engine schema; a value of any
other shape is treated as a comparison type error. -/
def set_last_activity (current_start : Option Int) (row : Row) :
    Option (Option Int) :=
  match Row.get? row "start_time" with
  | none => none
  | some Val.vNull => some current_start
  | some (Val.vInt t) =>
      match current_start with
      | none => some (some t)
      | some c => some (some (if t > c then t else c))
  | some _ => none

/-- The body of the `try` block in `_normalize_queries_and_filter_rows`:
obfuscate `row['text']`, compute the content signature, and store it under
`query_signature`. A missing `text` key, an obfuscator failure, or a
signature failure is caught by the `except` clause, which leaves the row
unchanged and substitutes the sentinel text. Returns the (possibly
mutated) row together with the statement text to report. -/
def obfStep (obf : Val → Option String) (sig : String → Option String)
    (row : Row) : Row × String :=
  match Row.get? row "text" with
  | none => (row, sentinelText)
  | some v =>
    match obf v with
    | none => (row, sentinelText)
    | some s =>
      match sig s with
      | none => (row, sentinelText)
      | some q => (Row.set row "query_signature" (Val.vStr q), s)

/-- Re-encode the binary field `key` as a hex string, as the
`if key in row: row[key] = _hash_to_hex(row[key])` lines of
`_sanitize_row` do; `binascii.hexlify` raises (hence `none`) on a
non-bytes value. -/
def hexifyField (r : Row) (key : String) : Option Row :=
  match Row.get? r key with
  | none => some r
  | some (Val.vBytes bs) => some (Row.set r key (Val.vStr (hash_to_hex bs)))
  | some _ => none

/-- `_sanitize_row`: drop excluded and NULL-valued columns, replace the
statement text with the obfuscated text, and hex-encode the hash
fields. -/
def sanitize_row (row : Row) (obfuscated_statement : String) : Option Row :=
  let r1 : Row := row.filter
    (fun kv => kv.1 ∉ dm_exec_requests_exclude_keys ∧ kv.2 ≠ Val.vNull)
  let r2 := Row.set r1 "text" (Val.vStr obfuscated_statement)
  match hexifyField r2 "query_hash" with
  | none => none
  | some r3 => hexifyField r3 "query_plan_hash"

/-- One row's full passage through the loop body: obfuscation step then
sanitization. -/
def procRow (obf : Val → Option String) (sig : String → Option String)
    (row : Row) : Option Row :=
  sanitize_row (obfStep obf sig row).1 (obfStep obf sig row).2

/-- `_normalize_queries_and_filter_rows`, with the mutable
`self._activity_last_query_start` watermark and the running
`estimated_size` made explicit. Returns the accepted rows (`none` when an
uncaught exception escapes the loop) together with the watermark value
after the call — the watermark mutations of rows already processed
survive an exception, exactly as the in-place mutation in the source
does. -/
def normalize_queries_and_filter_rows (obf : Val → Option String)
    (sig : String → Option String) (wm : Option Int)
    (estimated_size max_bytes_limit : Nat) :
    List Row → Option (List Row) × Option Int
  | [] => (some [], wm)
  | row :: rest =>
    if wm = none ∧ Row.get? row "status" = some (Val.vStr "sleeping") then
      normalize_queries_and_filter_rows obf sig wm estimated_size
        max_bytes_limit rest
    else if wm = none ∧ Row.get? row "status" = none then
      (none, wm)
    else
      match set_last_activity wm (obfStep obf sig row).1 with
      | none => (none, wm)
      | some wm2 =>
        match sanitize_row (obfStep obf sig row).1 (obfStep obf sig row).2 with
        | none => (none, wm2)
        | some row2 =>
          let est2 := estimated_size + get_estimated_row_size_bytes row2
          if est2 > max_bytes_limit then (some [], wm2)
          else
            match normalize_queries_and_filter_rows obf sig wm2 est2
              max_bytes_limit rest with
            | (none, wmf) => (none, wmf)
            | (some out, wmf) => (some (row2 :: out), wmf)

/-- Semantic model of the fetch filter built by
`_get_extra_activity_query_args`. With the watermark unset the query has
no `WHERE` clause and every row is fetched. With watermark `t` the clause
is `WHERE NOT (r.session_id is NULL AND DATEDIFF(second,
at.transaction_begin_time, t) < collection_interval)`; `DATEDIFF` on
integer-second timestamps is plain subtraction, and `r.session_id is
NULL` is `sessionIdNull`. -/
def rowFetched (wm : Option Int) (collection_interval : Int)
    (sessionIdNull : Bool) (beginTime : Int) : Bool :=
  match wm with
  | none => true
  | some t => !(sessionIdNull && decide (t - beginTime < collection_interval))

/-- The inputs of one `collect_activity` call that come from outside the
job: the two fetch results (`none` models the cursor raising), and
whether event serialization plus transmission succeeds. -/
structure CollectInput where
  connections : Option (List Row)
  activityRows : Option (List Row)
  sendOk : Bool

/-- The observable outcome of one `collect_activity` call: the watermark
held by the job afterwards, the event payload handed to
`database_monitoring_query_activity` (activity rows and connection rows)
when one was sent, how often the `dd.sqlserver.activity.error` counter
was bumped, and whether the early error `return []` was taken. -/
structure CollectOutput where
  newWm : Option Int
  eventSent : Option (List Row × List Row)
  errorIncr : Nat
  retEmpty : Bool
deriving DecidableEq

/-- `collect_activity`: fetch connections, fetch activity, normalize,
assemble and send the event; any exception is caught by the single
top-level handler, which bumps the error counter and returns `[]`. The
envelope metadata (host, tags, timestamp) is outside the model; the
payload rows are kept. -/
def collect_activity (obf : Val → Option String)
    (sig : String → Option String) (wm : Option Int) (inp : CollectInput) :
    CollectOutput :=
  match inp.connections with
  | none => ⟨wm, none, 1, true⟩
  | some conns =>
    match inp.activityRows with
    | none => ⟨wm, none, 1, true⟩
    | some rows =>
      match normalize_queries_and_filter_rows obf sig wm 0 maxPayloadBytes rows with
      | (none, wm2) => ⟨wm2, none, 1, true⟩
      | (some normalized, wm2) =>
        if inp.sendOk then ⟨wm2, some (normalized, conns), 0, false⟩
        else ⟨wm2, none, 1, true⟩

/-- The watermark after the normalizer has run over each poll's activity
rows in turn, starting from `wm`. -/
def runPolls (obf : Val → Option String) (sig : String → Option String)
    (max_bytes_limit : Nat) (wm : Option Int) : List (List Row) → Option Int
  | [] => wm
  | p :: ps =>
      runPolls obf sig max_bytes_limit
        (normalize_queries_and_filter_rows obf sig wm 0 max_bytes_limit p).2 ps

/-- The rows of one poll that the normalizer considers: rows suppressed by
the first-poll sleeping filter are skipped, rows after an uncaught
exception or after the byte-budget cutoff are never reached, the row
whose `start_time` lookup raises did not get its watermark assignment,
and the row that triggers the budget cutoff is included. -/
def consideredRows (obf : Val → Option String) (sig : String → Option String)
    (wm : Option Int) (estimated_size max_bytes_limit : Nat) :
    List Row → List Row
  | [] => []
  | row :: rest =>
    if wm = none ∧ Row.get? row "status" = some (Val.vStr "sleeping") then
      consideredRows obf sig wm estimated_size max_bytes_limit rest
    else if wm = none ∧ Row.get? row "status" = none then []
    else
      match set_last_activity wm (obfStep obf sig row).1 with
      | none => []
      | some wm2 =>
        match sanitize_row (obfStep obf sig row).1 (obfStep obf sig row).2 with
        | none => [row]
        | some row2 =>
          let est2 := estimated_size + get_estimated_row_size_bytes row2
          if est2 > max_bytes_limit then [row]
          else row :: consideredRows obf sig wm2 est2 max_bytes_limit rest

/-- The non-null `start_time` of a row, when it has one. -/
def startTime? (row : Row) : Option Int :=
  match Row.get? row "start_time" with
  | some (Val.vInt t) => some t
  | _ => none

/-- The non-null start times of the rows considered across a sequence of
polls, with the watermark evolving between polls. -/
def pollsTimes (obf : Val → Option String) (sig : String → Option String)
    (max_bytes_limit : Nat) (wm : Option Int) : List (List Row) → List Int
  | [] => []
  | p :: ps =>
      (consideredRows obf sig wm 0 max_bytes_limit p).filterMap startTime? ++
      pollsTimes obf sig max_bytes_limit
        (normalize_queries_and_filter_rows obf sig wm 0 max_bytes_limit p).2 ps

/-- `a` is below `b` in the watermark order: an unset watermark is below
everything, a set one never goes back to unset. -/
def wmLe (a b : Option Int) : Prop :=
  match a with
  | none => True
  | some x => ∃ y, b = some y ∧ x ≤ y

/-- Folding step of the spec's description of the watermark: the maximum
of the watermark so far and the observed start time. -/
def specMaxStep (w : Option Int) (t : Int) : Option Int :=
  some (max (w.getD t) t)

/-- The exclusion predicate exactly as the claim words it: idle rows whose
transaction began more than `collection_interval` seconds before the
watermark are the excluded ones. -/
def specExcluded (t collection_interval : Int) (sessionIdNull : Bool)
    (beginTime : Int) : Bool :=
  sessionIdNull && decide (t - beginTime > collection_interval)

/-- Sample obfuscator for concrete runs: succeeds on string-valued
statement texts, returning the text unchanged. -/
def obfOk : Val → Option String
  | Val.vStr s => some s
  | _ => none

/-- Sample signature function for concrete runs. -/
def sigOk : String → Option String := fun s => some (String.append "sig " s)

/-- Sample running row for concrete runs. -/
def exRowRun : Row :=
  [("status", Val.vStr "running"), ("start_time", Val.vInt 1),
   ("text", Val.vStr "select a")]

/-- Sample sleeping row for concrete runs. -/
def exRowSleep : Row :=
  [("status", Val.vStr "sleeping"), ("start_time", Val.vInt 2),
   ("text", Val.vStr "select b")]

/-- Modelled from the spec for comparison with
`normalize_queries_and_filter_rows`: the same loop without the first-poll
sleeping filter (step 2a removed), so the `status` key is never read. -/
def normalizeNoSleepFilter (obf : Val → Option String)
    (sig : String → Option String) (wm : Option Int)
    (estimated_size max_bytes_limit : Nat) :
    List Row → Option (List Row) × Option Int
  | [] => (some [], wm)
  | row :: rest =>
    match set_last_activity wm (obfStep obf sig row).1 with
    | none => (none, wm)
    | some wm2 =>
      match sanitize_row (obfStep obf sig row).1 (obfStep obf sig row).2 with
      | none => (none, wm2)
      | some row2 =>
        let est2 := estimated_size + get_estimated_row_size_bytes row2
        if est2 > max_bytes_limit then (some [], wm2)
        else
          match normalizeNoSleepFilter obf sig wm2 est2 max_bytes_limit rest with
          | (none, wmf) => (none, wmf)
          | (some out, wmf) => (some (row2 :: out), wmf)

/-- Per-row watermark advance over an observed non-null start time, as in
the comparison chain of `_set_last_activity`. -/
def wmStep (w : Option Int) (t : Int) : Option Int :=
  match w with
  | none => some t
  | some c => some (if t > c then t else c)

/-- The obfuscation step fails on this row: the `text` key is absent, the
obfuscator raises, or the signature computation raises — no success path
exists. -/
def obfFails (obf : Val → Option String) (sig : String → Option String)
    (row : Row) : Prop :=
  ∀ v s q, Row.get? row "text" = some v → obf v = some s → sig s = some q →
    False

/-- The sixteen lowercase hexadecimal digit characters. -/
def hexAlphabet : List Char := "0123456789abcdef".data

/-- Every character of the string is a lowercase hexadecimal digit. -/
def isHexString (s : String) : Bool :=
  s.data.all (fun c => c ∈ hexAlphabet)

/-- Sample always-failing obfuscator for concrete runs. -/
def obfFail : Val → Option String := fun _ => none

/-- Sample row with an active request but no `status` column. -/
def exRowNoStatus : Row :=
  [("start_time", Val.vInt 5), ("text", Val.vStr "select c")]

/-- Sample row with no `start_time` column. -/
def exRowNoStart : Row :=
  [("status", Val.vStr "running"), ("text", Val.vStr "select d")]

/-- Sample row with no `text` column. -/
def exRowNoText : Row :=
  [("status", Val.vStr "running"), ("start_time", Val.vInt 7)]

/-- The sanitized output of `exRowRun` under `obfOk` and `sigOk`. -/
def exRowRunOut : Row :=
  [("status", Val.vStr "running"), ("start_time", Val.vInt 1),
   ("text", Val.vStr "select a"), ("query_signature", Val.vStr "sig select a")]

/-- The row has a `status` column whose value is not the string
`sleeping`, so the first-poll filter never suppresses it and the `status`
lookup never raises. -/
def statusOk (row : Row) : Bool :=
  match Row.get? row "status" with
  | some v => v ≠ Val.vStr "sleeping"
  | none => false

/-- The row's `start_time` column is present and NULL-or-timestamp, so
`_set_last_activity` never raises on it. -/
def startTimeOk (row : Row) : Bool :=
  match Row.get? row "start_time" with
  | some Val.vNull => true
  | some (Val.vInt _) => true
  | _ => false

/-- Second sample running row. -/
def exRowRun2 : Row :=
  [("status", Val.vStr "running"), ("start_time", Val.vInt 2),
   ("text", Val.vStr "select x")]

/-- Third sample running row. -/
def exRowRun3 : Row :=
  [("status", Val.vStr "running"), ("start_time", Val.vInt 3),
   ("text", Val.vStr "select y")]

/-- The sanitized output of `exRowRun2` under `obfOk` and `sigOk`. -/
def exRowRun2Out : Row :=
  [("status", Val.vStr "running"), ("start_time", Val.vInt 2),
   ("text", Val.vStr "select x"), ("query_signature", Val.vStr "sig select x")]

/-- The sanitized output of `exRowRun3` under `obfOk` and `sigOk`. -/
def exRowRun3Out : Row :=
  [("status", Val.vStr "running"), ("start_time", Val.vInt 3),
   ("text", Val.vStr "select y"), ("query_signature", Val.vStr "sig select y")]

/-- Sample row carrying an excluded key, a NULL column and a binary query
hash. -/
def exRowHash : Row :=
  [("status", Val.vStr "running"), ("start_time", Val.vInt 4),
   ("text", Val.vStr "select h"), ("sql_handle", Val.vBytes [1, 2]),
   ("wait_type", Val.vNull), ("query_hash", Val.vBytes [171, 1])]

/-- The sanitized output of `exRowHash` under `obfOk` and `sigOk`. -/
def exRowHashOut : Row :=
  [("status", Val.vStr "running"), ("start_time", Val.vInt 4),
   ("text", Val.vStr "select h"), ("query_hash", Val.vStr "ab01"),
   ("query_signature", Val.vStr "sig select h")]

/-- The sanitized output of `exRowRun` when obfuscation fails. -/
def exRowRunFailOut : Row :=
  [("status", Val.vStr "running"), ("start_time", Val.vInt 1),
   ("text", Val.vStr sentinelText)]

/-- The sanitized output of `exRowNoText` (text recovered as the
sentinel, appended after the surviving columns). -/
def exRowNoTextOut : Row :=
  [("status", Val.vStr "running"), ("start_time", Val.vInt 7),
   ("text", Val.vStr sentinelText)]

theorem Row.get?_set_eq (r : Row) (key : String) (v : Val) :
    Row.get? (Row.set r key v) key = some v := by
  induction r with
  | nil => simp [Row.set, Row.get?]
  | cons kv r ih =>
    obtain ⟨k, w⟩ := kv
    by_cases h : k = key
    · simp [Row.set, h, Row.get?]
    · simp [Row.set, h, Row.get?, ih]

theorem Row.get?_set_ne (r : Row) (key k : String) (v : Val) (h : k ≠ key) :
    Row.get? (Row.set r key v) k = Row.get? r k := by
  have hks : ¬(key = k) := fun hh => h hh.symm
  induction r with
  | nil => simp [Row.set, Row.get?, hks]
  | cons kv r ih =>
    obtain ⟨k0, w⟩ := kv
    by_cases h0 : k0 = key
    · subst h0
      simp [Row.set, Row.get?, hks]
    · by_cases h1 : k0 = k
      · simp [Row.set, h0, Row.get?, h1, h]
      · simp [Row.set, h0, Row.get?, h1, ih]

theorem Row.mem_set (r : Row) (key : String) (v : Val) (kv : String × Val)
    (h : kv ∈ Row.set r key v) : kv = (key, v) ∨ kv ∈ r := by
  induction r with
  | nil => simpa [Row.set] using h
  | cons kv0 r ih =>
    obtain ⟨k0, w⟩ := kv0
    by_cases h0 : k0 = key
    · simp only [Row.set, h0, if_pos rfl] at h
      rcases List.mem_cons.mp h with h | h
      · exact Or.inl h
      · exact Or.inr (List.mem_cons_of_mem _ h)
    · simp only [Row.set, if_neg h0] at h
      rcases List.mem_cons.mp h with h | h
      · exact Or.inr (by simp [h])
      · rcases ih h with h | h
        · exact Or.inl h
        · exact Or.inr (List.mem_cons_of_mem _ h)

theorem Row.get?_filter_none (r : Row) (p : String × Val → Bool) (k : String)
    (hp : ∀ v, p (k, v) = false) : Row.get? (r.filter p) k = none := by
  induction r with
  | nil => simp [Row.get?]
  | cons kv r ih =>
    obtain ⟨k0, w⟩ := kv
    by_cases h0 : k0 = k
    · subst h0
      simp [List.filter, hp w, ih]
    · by_cases hpk : p (k0, w)
      · simp [List.filter, hpk, Row.get?, h0, ih]
      · simp [List.filter, hpk, ih]

theorem Row.get?_filter_of_none (r : Row) (p : String × Val → Bool)
    (k : String) (h : Row.get? r k = none) :
    Row.get? (r.filter p) k = none := by
  induction r with
  | nil => simp [Row.get?]
  | cons kv r ih =>
    obtain ⟨k0, w⟩ := kv
    by_cases h0 : k0 = k
    · simp [Row.get?, h0] at h
    · simp only [Row.get?, if_neg h0] at h
      by_cases hpk : p (k0, w)
      · simp [List.filter, hpk, Row.get?, h0, ih h]
      · simp [List.filter, hpk, ih h]

theorem hexifyField_get?_ne (r r2 : Row) (key k : String)
    (h : hexifyField r key = some r2) (hk : k ≠ key) :
    Row.get? r2 k = Row.get? r k := by
  unfold hexifyField at h
  split at h
  · cases h
    rfl
  · cases h
    exact Row.get?_set_ne _ _ _ _ hk
  · cases h

theorem hexifyField_mem (r r2 : Row) (key : String)
    (h : hexifyField r key = some r2) (kv : String × Val) (hkv : kv ∈ r2) :
    (∃ bs, kv = (key, Val.vStr (hash_to_hex bs))) ∨ kv ∈ r := by
  unfold hexifyField at h
  split at h
  · cases h
    exact Or.inr hkv
  · rename_i bs _
    cases h
    rcases Row.mem_set _ _ _ _ hkv with h | h
    · exact Or.inl ⟨bs, h⟩
    · exact Or.inr h
  · cases h

theorem hexifyField_get?_eq (r r2 : Row) (key : String)
    (h : hexifyField r key = some r2) :
    Row.get? r2 key = none ∨
      ∃ bs, Row.get? r2 key = some (Val.vStr (hash_to_hex bs)) := by
  unfold hexifyField at h
  split at h
  · cases h
    rename_i hn
    exact Or.inl hn
  · rename_i bs _
    cases h
    exact Or.inr ⟨bs, Row.get?_set_eq _ _ _⟩
  · cases h

theorem obfStep_fst_get?_ne (obf : Val → Option String)
    (sig : String → Option String) (row : Row) (k : String)
    (hk : k ≠ "query_signature") :
    Row.get? (obfStep obf sig row).1 k = Row.get? row k := by
  unfold obfStep
  split
  · rfl
  · split
    · rfl
    · split
      · rfl
      · exact Row.get?_set_ne _ _ _ _ hk

theorem obfStep_of_fails (obf : Val → Option String)
    (sig : String → Option String) (row : Row)
    (h : obfFails obf sig row) : obfStep obf sig row = (row, sentinelText) := by
  unfold obfStep
  split
  · rfl
  · rename_i v hv
    split
    · rfl
    · rename_i s hs
      split
      · rfl
      · rename_i q hq
        exact (h v s q hv hs hq).elim

theorem hexDigit_mem_alphabet (n : Nat) (h : n < 16) :
    hexDigit n ∈ hexAlphabet := by
  interval_cases n <;> decide

theorem isHexString_hash_to_hex (bs : List Nat) :
    isHexString (hash_to_hex bs) = true := by
  unfold isHexString hash_to_hex
  have : ∀ l : List Nat, (hexChars l).all (fun c => decide (c ∈ hexAlphabet)) = true := by
    intro l
    induction l with
    | nil => rfl
    | cons b l ih =>
      simp only [hexChars, List.all_cons, ih, Bool.and_true]
      have h1 := hexDigit_mem_alphabet (b / 16 % 16) (Nat.mod_lt _ (by omega))
      have h2 := hexDigit_mem_alphabet (b % 16) (Nat.mod_lt _ (by omega))
      simp [h1, h2]
  simpa using this bs

theorem sanitize_row_eq (row : Row) (t : String) (r : Row)
    (h : sanitize_row row t = some r) :
    ∃ r3, hexifyField (Row.set (row.filter
        (fun kv => kv.1 ∉ dm_exec_requests_exclude_keys ∧ kv.2 ≠ Val.vNull))
        "text" (Val.vStr t)) "query_hash" = some r3 ∧
      hexifyField r3 "query_plan_hash" = some r := by
  simp only [sanitize_row] at h
  split at h
  · cases h
  · rename_i r3 hq
    exact ⟨r3, hq, h⟩

theorem sanitize_excluded_absent (row : Row) (t : String) (r : Row)
    (h : sanitize_row row t = some r) (k : String)
    (hk : k ∈ dm_exec_requests_exclude_keys) : Row.get? r k = none := by
  obtain ⟨r3, hq, hp⟩ := sanitize_row_eq row t r h
  have hne : k ≠ "text" ∧ k ≠ "query_hash" ∧ k ≠ "query_plan_hash" := by
    simp only [dm_exec_requests_exclude_keys, List.mem_cons,
      List.not_mem_nil, or_false] at hk
    rcases hk with rfl | rfl | rfl | rfl | rfl | rfl | rfl <;>
      exact ⟨by decide, by decide, by decide⟩
  rw [hexifyField_get?_ne _ _ _ _ hp hne.2.2,
      hexifyField_get?_ne _ _ _ _ hq hne.2.1,
      Row.get?_set_ne _ _ _ _ hne.1]
  exact Row.get?_filter_none _ _ _ (fun v => by simp [hk])

theorem sanitize_no_null (row : Row) (t : String) (r : Row)
    (h : sanitize_row row t = some r) (kv : String × Val) (hkv : kv ∈ r) :
    kv.2 ≠ Val.vNull := by
  obtain ⟨r3, hq, hp⟩ := sanitize_row_eq row t r h
  rcases hexifyField_mem _ _ _ hp kv hkv with ⟨bs, rfl⟩ | hkv2
  · simp
  rcases hexifyField_mem _ _ _ hq kv hkv2 with ⟨bs, rfl⟩ | hkv3
  · simp
  rcases Row.mem_set _ _ _ _ hkv3 with rfl | hkv4
  · simp
  have hmem := List.mem_filter.mp hkv4
  have := hmem.2
  simp only [decide_eq_true_eq] at this
  exact this.2

theorem sanitize_text (row : Row) (t : String) (r : Row)
    (h : sanitize_row row t = some r) :
    Row.get? r "text" = some (Val.vStr t) := by
  obtain ⟨r3, hq, hp⟩ := sanitize_row_eq row t r h
  rw [hexifyField_get?_ne _ _ _ _ hp (by decide),
      hexifyField_get?_ne _ _ _ _ hq (by decide)]
  exact Row.get?_set_eq _ _ _

theorem sanitize_hash_hex (row : Row) (t : String) (r : Row)
    (h : sanitize_row row t = some r) (v : Val)
    (hv : Row.get? r "query_hash" = some v) :
    ∃ s, v = Val.vStr s ∧ isHexString s = true := by
  obtain ⟨r3, hq, hp⟩ := sanitize_row_eq row t r h
  have h3 : Row.get? r "query_hash" = Row.get? r3 "query_hash" :=
    hexifyField_get?_ne _ _ _ _ hp (by decide)
  rcases hexifyField_get?_eq _ _ _ hq with hn | ⟨bs, hb⟩
  · rw [h3, hn] at hv
    cases hv
  · rw [h3, hb] at hv
    cases hv
    exact ⟨_, rfl, isHexString_hash_to_hex bs⟩

theorem sanitize_plan_hash_hex (row : Row) (t : String) (r : Row)
    (h : sanitize_row row t = some r) (v : Val)
    (hv : Row.get? r "query_plan_hash" = some v) :
    ∃ s, v = Val.vStr s ∧ isHexString s = true := by
  obtain ⟨r3, hq, hp⟩ := sanitize_row_eq row t r h
  rcases hexifyField_get?_eq _ _ _ hp with hn | ⟨bs, hb⟩
  · rw [hn] at hv
    cases hv
  · rw [hb] at hv
    cases hv
    exact ⟨_, rfl, isHexString_hash_to_hex bs⟩

theorem sanitize_qs_absent (row : Row) (t : String) (r : Row)
    (h : sanitize_row row t = some r)
    (hq0 : Row.get? row "query_signature" = none) :
    Row.get? r "query_signature" = none := by
  obtain ⟨r3, hq, hp⟩ := sanitize_row_eq row t r h
  rw [hexifyField_get?_ne _ _ _ _ hp (by decide),
      hexifyField_get?_ne _ _ _ _ hq (by decide),
      Row.get?_set_ne _ _ _ _ (by decide)]
  exact Row.get?_filter_of_none _ _ _ hq0

theorem normalize_mem (obf : Val → Option String)
    (sig : String → Option String) :
    ∀ (rows : List Row) (wm : Option Int) (est mb : Nat) (out : List Row)
      (wmf : Option Int),
      normalize_queries_and_filter_rows obf sig wm est mb rows =
        (some out, wmf) →
      ∀ r ∈ out, ∃ src ∈ rows, procRow obf sig src = some r := by
  intro rows
  induction rows with
  | nil =>
    intro wm est mb out wmf h r hr
    simp only [normalize_queries_and_filter_rows, Prod.mk.injEq,
      Option.some.injEq] at h
    rw [← h.1] at hr
    cases hr
  | cons row rest ih =>
    intro wm est mb out wmf h r hr
    simp only [normalize_queries_and_filter_rows] at h
    split at h
    · obtain ⟨src, hsrc, hp⟩ := ih _ _ _ _ _ h r hr
      exact ⟨src, List.mem_cons_of_mem _ hsrc, hp⟩
    · split at h
      · simp at h
      · split at h
        · simp at h
        · rename_i wm2 hset
          split at h
          · simp at h
          · rename_i row2 hsan
            split at h
            · simp only [Prod.mk.injEq, Option.some.injEq] at h
              rw [← h.1] at hr
              cases hr
            · split at h
              · simp at h
              · rename_i out0 wmf0 hrest
                simp only [Prod.mk.injEq, Option.some.injEq] at h
                rw [← h.1] at hr
                rcases List.mem_cons.mp hr with rfl | hr0
                · exact ⟨row, List.mem_cons_self _ _, hsan⟩
                · obtain ⟨src, hsrc, hp⟩ := ih _ _ _ _ _ hrest r hr0
                  exact ⟨src, List.mem_cons_of_mem _ hsrc, hp⟩

theorem set_last_activity_cases (wm wm2 : Option Int) (r1 : Row)
    (h : set_last_activity wm r1 = some wm2) :
    (Row.get? r1 "start_time" = some Val.vNull ∧ wm2 = wm) ∨
    (∃ t, Row.get? r1 "start_time" = some (Val.vInt t) ∧ wm2 = wmStep wm t) := by
  unfold set_last_activity at h
  split at h
  · cases h
  · cases h
    exact Or.inl ⟨by assumption, rfl⟩
  · rename_i t hst
    refine Or.inr ⟨t, hst, ?_⟩
    cases wm with
    | none =>
      cases h
      rfl
    | some c =>
      cases h
      rfl
  · cases h

theorem startTime?_obfStep (obf : Val → Option String)
    (sig : String → Option String) (row : Row) :
    startTime? (obfStep obf sig row).1 = startTime? row := by
  unfold startTime?
  rw [obfStep_fst_get?_ne obf sig row _ (by decide)]

theorem normalize_wm_eq (obf : Val → Option String)
    (sig : String → Option String) (mb : Nat) :
    ∀ (rows : List Row) (wm : Option Int) (est : Nat),
      (normalize_queries_and_filter_rows obf sig wm est mb rows).2 =
        List.foldl wmStep wm
          ((consideredRows obf sig wm est mb rows).filterMap startTime?) := by
  intro rows
  induction rows with
  | nil =>
    intro wm est
    simp [normalize_queries_and_filter_rows, consideredRows]
  | cons row rest ih =>
    intro wm est
    simp only [normalize_queries_and_filter_rows, consideredRows]
    by_cases h1 : wm = none ∧ Row.get? row "status" = some (Val.vStr "sleeping")
    · rw [if_pos h1, if_pos h1]
      exact ih wm est
    · rw [if_neg h1, if_neg h1]
      by_cases h2 : wm = none ∧ Row.get? row "status" = none
      · rw [if_pos h2, if_pos h2]
        simp
      · rw [if_neg h2, if_neg h2]
        cases hset : set_last_activity wm (obfStep obf sig row).1 with
        | none => simp
        | some wm2 =>
          have hcases := set_last_activity_cases wm wm2 _ hset
          have hstep : ∀ L : List Row,
              List.foldl wmStep wm ((row :: L).filterMap startTime?) =
              List.foldl wmStep wm2 (L.filterMap startTime?) := by
            intro L
            rcases hcases with ⟨hnull, rfl⟩ | ⟨t, ht, rfl⟩
            · have : startTime? row = none := by
                unfold startTime?
                rw [← obfStep_fst_get?_ne obf sig row _ (by decide), hnull]
              simp [List.filterMap_cons, this]
            · have : startTime? row = some t := by
                unfold startTime?
                rw [← obfStep_fst_get?_ne obf sig row _ (by decide), ht]
              simp [List.filterMap_cons, this]
          cases hsan : sanitize_row (obfStep obf sig row).1
              (obfStep obf sig row).2 with
          | none =>
            simp only []
            rw [hstep []]
            simp
          | some row2 =>
            simp only []
            by_cases h3 : est + get_estimated_row_size_bytes row2 > mb
            · rw [if_pos h3, if_pos h3]
              rw [hstep []]
              simp
            · rw [if_neg h3, if_neg h3]
              rw [hstep (consideredRows obf sig wm2
                (est + get_estimated_row_size_bytes row2) mb rest)]
              rw [← ih wm2 (est + get_estimated_row_size_bytes row2)]
              cases hrest : normalize_queries_and_filter_rows obf sig wm2
                  (est + get_estimated_row_size_bytes row2) mb rest with
              | mk o w =>
                cases o <;> simp

theorem wmLe_trans (a b c : Option Int) (hab : wmLe a b) (hbc : wmLe b c) :
    wmLe a c := by
  cases a with
  | none => trivial
  | some x =>
    obtain ⟨y, hb, hxy⟩ := hab
    rw [hb] at hbc
    obtain ⟨z, hc, hyz⟩ := hbc
    exact ⟨z, hc, le_trans hxy hyz⟩

theorem wmLe_wmStep (w : Option Int) (t : Int) : wmLe w (wmStep w t) := by
  cases w with
  | none => trivial
  | some c =>
    refine ⟨if t > c then t else c, rfl, ?_⟩
    by_cases h : t > c
    · rw [if_pos h]
      exact le_of_lt h
    · rw [if_neg h]

theorem wmLe_foldl (l : List Int) :
    ∀ w : Option Int, wmLe w (List.foldl wmStep w l) := by
  induction l with
  | nil =>
    intro w
    cases w with
    | none => trivial
    | some x => exact ⟨x, rfl, le_refl x⟩
  | cons t l ih =>
    intro w
    rw [List.foldl_cons]
    exact wmLe_trans _ _ _ (wmLe_wmStep w t) (ih (wmStep w t))

theorem wmStep_eq_specMaxStep (w : Option Int) (t : Int) :
    wmStep w t = specMaxStep w t := by
  cases w with
  | none => simp [wmStep, specMaxStep]
  | some c =>
    simp only [wmStep, specMaxStep, Option.getD_some]
    congr 1
    rcases le_or_lt t c with h | h
    · rw [if_neg (not_lt.mpr h), max_eq_left h]
    · rw [if_pos h, max_eq_right h.le]

theorem foldl_wmStep_eq_spec (l : List Int) :
    ∀ w : Option Int, List.foldl wmStep w l = List.foldl specMaxStep w l := by
  induction l with
  | nil => intro w; rfl
  | cons t l ih =>
    intro w
    rw [List.foldl_cons, List.foldl_cons, wmStep_eq_specMaxStep, ih]

theorem runPolls_append (obf : Val → Option String)
    (sig : String → Option String) (mb : Nat) (ps qs : List (List Row)) :
    ∀ wm : Option Int,
      runPolls obf sig mb wm (ps ++ qs) =
        runPolls obf sig mb (runPolls obf sig mb wm ps) qs := by
  induction ps with
  | nil => intro wm; rfl
  | cons p ps ih =>
    intro wm
    simp only [List.cons_append, runPolls]
    exact ih _

theorem runPolls_eq_foldl (obf : Val → Option String)
    (sig : String → Option String) (mb : Nat) (polls : List (List Row)) :
    ∀ wm : Option Int,
      runPolls obf sig mb wm polls =
        List.foldl wmStep wm (pollsTimes obf sig mb wm polls) := by
  induction polls with
  | nil => intro wm; rfl
  | cons p ps ih =>
    intro wm
    simp only [runPolls, pollsTimes]
    rw [List.foldl_append, ← normalize_wm_eq obf sig mb p wm 0]
    exact ih _

theorem normalize_prefix_truncation (obf : Val → Option String)
    (sig : String → Option String) (B : Nat) :
    ∀ (rows ps : List Row) (wm : Option Int) (est j : Nat),
      (∀ row ∈ rows, ∃ v, Row.get? row "status" = some v ∧
        v ≠ Val.vStr "sleeping") →
      (∀ row ∈ rows, Row.get? row "start_time" = some Val.vNull ∨
        ∃ t, Row.get? row "start_time" = some (Val.vInt t)) →
      rows.map (procRow obf sig) = ps.map some →
      j < rows.length →
      est + ((ps.map get_estimated_row_size_bytes).take j).sum ≤ B →
      est + ((ps.map get_estimated_row_size_bytes).take (j + 1)).sum > B →
      (normalize_queries_and_filter_rows obf sig wm est B rows).1 =
        some (ps.take j) := by
  intro rows
  induction rows with
  | nil =>
    intro ps wm est j _ _ _ hj
    simp at hj
  | cons row rest ih =>
    intro ps wm est j hstat hstart hproc hj hle hgt
    cases ps with
    | nil => simp at hproc
    | cons p ps2 =>
      simp only [List.map_cons, List.cons.injEq] at hproc
      obtain ⟨hp, hproc2⟩ := hproc
      obtain ⟨v, hv, hvne⟩ := hstat row (List.mem_cons_self _ _)
      have h1 : ¬(wm = none ∧
          Row.get? row "status" = some (Val.vStr "sleeping")) := by
        rintro ⟨_, hs⟩
        rw [hv] at hs
        cases hs
        exact hvne rfl
      have h2 : ¬(wm = none ∧ Row.get? row "status" = none) := by
        rintro ⟨_, hs⟩
        rw [hv] at hs
        cases hs
      have hset : ∃ wm2,
          set_last_activity wm (obfStep obf sig row).1 = some wm2 := by
        have hpres : Row.get? (obfStep obf sig row).1 "start_time" =
            Row.get? row "start_time" :=
          obfStep_fst_get?_ne obf sig row _ (by decide)
        unfold set_last_activity
        rw [hpres]
        rcases hstart row (List.mem_cons_self _ _) with hnull | ⟨t, ht⟩
        · rw [hnull]
          exact ⟨wm, rfl⟩
        · rw [ht]
          cases wm
          · exact ⟨_, rfl⟩
          · exact ⟨_, rfl⟩
      obtain ⟨wm2, hset⟩ := hset
      unfold procRow at hp
      simp only [normalize_queries_and_filter_rows, if_neg h1, if_neg h2,
        hset, hp]
      cases j with
      | zero =>
        have hcut : est + get_estimated_row_size_bytes p > B := by
          simp only [List.map_cons, List.take_succ_cons, List.take_zero,
            List.sum_cons, List.sum_nil] at hgt
          omega
        rw [if_pos hcut]
        simp
      | succ j2 =>
        have hsum : est + get_estimated_row_size_bytes p +
            (((ps2.map get_estimated_row_size_bytes).take j2).sum) ≤ B := by
          simp only [List.map_cons, List.take_succ_cons, List.sum_cons] at hle
          omega
        have hnocut : ¬ est + get_estimated_row_size_bytes p > B := by omega
        rw [if_neg hnocut]
        have ihres := ih ps2 wm2 (est + get_estimated_row_size_bytes p) j2
          (fun r hr => hstat r (List.mem_cons_of_mem _ hr))
          (fun r hr => hstart r (List.mem_cons_of_mem _ hr))
          hproc2
          (by simpa using Nat.succ_lt_succ_iff.mp (by simpa using hj))
          (by omega)
          (by
            simp only [List.map_cons, List.take_succ_cons, List.sum_cons]
              at hgt
            omega)
        cases hrest : normalize_queries_and_filter_rows obf sig wm2
            (est + get_estimated_row_size_bytes p) B rest with
        | mk o w =>
          rw [hrest] at ihres
          simp only at ihres
          rw [ihres]
          simp [List.take_succ_cons]

theorem normalize_eq_noSleep (obf : Val → Option String)
    (sig : String → Option String) (mb : Nat) :
    ∀ (rows : List Row) (w : Int) (est : Nat),
      normalize_queries_and_filter_rows obf sig (some w) est mb rows =
        normalizeNoSleepFilter obf sig (some w) est mb rows := by
  intro rows
  induction rows with
  | nil =>
    intro w est
    rfl
  | cons row rest ih =>
    intro w est
    simp only [normalize_queries_and_filter_rows, normalizeNoSleepFilter]
    have h1 : ¬((some w : Option Int) = none ∧
        Row.get? row "status" = some (Val.vStr "sleeping")) := by
      rintro ⟨h, _⟩
      cases h
    have h2 : ¬((some w : Option Int) = none ∧
        Row.get? row "status" = none) := by
      rintro ⟨h, _⟩
      cases h
    rw [if_neg h1, if_neg h2]
    cases hset : set_last_activity (some w) (obfStep obf sig row).1 with
    | none => rfl
    | some wm2 =>
      have hw2 : ∃ w2, wm2 = some w2 := by
        rcases set_last_activity_cases _ _ _ hset with ⟨_, rfl⟩ | ⟨t, _, rfl⟩
        · exact ⟨w, rfl⟩
        · exact ⟨if t > w then t else w, rfl⟩
      obtain ⟨w2, rfl⟩ := hw2
      cases hsan : sanitize_row (obfStep obf sig row).1
          (obfStep obf sig row).2 with
      | none => rfl
      | some row2 =>
        dsimp only
        by_cases h3 : est + get_estimated_row_size_bytes row2 > mb
        · rw [if_pos h3, if_pos h3]
        · rw [if_neg h3, if_neg h3]
          rw [ih w2 (est + get_estimated_row_size_bytes row2)]

/-- C1 counterexample. The claim states the fetch filter excludes exactly
the idle rows whose transaction began more than `collection_interval`
seconds before the watermark `T`, and fetches the idle rows that began
within `collection_interval` seconds of `T`. With watermark 100 and
interval 10, the interpolated `WHERE` clause drops an idle row that began
at 95 (5 seconds before `T`, within the interval) even though the claim
says it is fetched, and keeps an idle row that began at 50 (50 seconds
before `T`, more than the interval) even though the claim says it is
excluded. -/
theorem claim_C1_counterexample :
    rowFetched (some 100) 10 true 95 = false ∧
    specExcluded 100 10 true 95 = false ∧
    rowFetched (some 100) 10 true 50 = true ∧
    specExcluded 100 10 true 50 = true := by
  decide

/-- C1, amended: with the watermark set to `T`, the interpolated predicate
excludes exactly those rows whose request side is absent AND whose
transaction began fewer than `collection_interval` seconds before `T` (or
after `T`); idle transactions that began at least `collection_interval`
seconds before `T`, all rows with an active request, and every row when
the watermark is unset, are fetched. -/
theorem claim_C1 :
    ∀ (t collection_interval beginTime : Int) (idle : Bool),
      (rowFetched (some t) collection_interval idle beginTime = false ↔
        idle = true ∧ t - beginTime < collection_interval) ∧
      rowFetched none collection_interval idle beginTime = true ∧
      rowFetched (some t) collection_interval false beginTime = true := by
  intro t ci bt idle
  refine ⟨?_, rfl, ?_⟩
  · cases idle <;> simp [rowFetched]
  · simp [rowFetched]

/-- C2 counterexample. The claim states that on a first-ever poll
(watermark unset at poll start) every sleeping row is excluded, and that
for input `[running at 1, sleeping at 2]` the output contains only the
first row. In fact the first row's `start_time` sets the watermark inside
the loop, so the following sleeping row is no longer suppressed: the
output contains both rows. -/
theorem claim_C2_counterexample :
    (normalize_queries_and_filter_rows obfOk sigOk none 0 1000000
        [exRowRun, exRowSleep]).1.map List.length = some 2 ∧
    ¬ (normalize_queries_and_filter_rows obfOk sigOk none 0 1000000
        [exRowRun, exRowSleep]).1.map List.length = some 1 := by
  decide

/-- C2, amended: a sleeping row is excluded only while the watermark is
still unset at the moment the row is processed. Concretely: (1) when the
poll starts with the watermark already set, the normalizer behaves
exactly like the variant with no sleeping filter at all, so sleeping rows
are never suppressed by this rule; (2) while the watermark is unset, a
leading sleeping row is dropped and processing continues with the rest. -/
theorem claim_C2 :
    (∀ (obf : Val → Option String) (sig : String → Option String)
      (mb : Nat) (rows : List Row) (w : Int) (est : Nat),
        normalize_queries_and_filter_rows obf sig (some w) est mb rows =
          normalizeNoSleepFilter obf sig (some w) est mb rows) ∧
    (∀ (obf : Val → Option String) (sig : String → Option String)
      (mb est : Nat) (row : Row) (rest : List Row),
        Row.get? row "status" = some (Val.vStr "sleeping") →
        normalize_queries_and_filter_rows obf sig none est mb (row :: rest) =
          normalize_queries_and_filter_rows obf sig none est mb rest) := by
  constructor
  · intro obf sig mb rows w est
    exact normalize_eq_noSleep obf sig mb rows w est
  · intro obf sig mb est row rest h
    rw [normalize_queries_and_filter_rows, if_pos ⟨rfl, h⟩]

/-- Witness for C2: with the watermark set to 0, the sleeping example row
is reported (not suppressed), and with the watermark unset a leading
sleeping row is dropped. -/
theorem claim_C2_witness :
    normalize_queries_and_filter_rows obfOk sigOk (some 0) 0 1000000
        [exRowSleep] =
      normalizeNoSleepFilter obfOk sigOk (some 0) 0 1000000 [exRowSleep] ∧
    normalize_queries_and_filter_rows obfOk sigOk none 0 1000000
        [exRowSleep, exRowRun] =
      normalize_queries_and_filter_rows obfOk sigOk none 0 1000000
        [exRowRun] :=
  ⟨claim_C2.1 obfOk sigOk 1000000 [exRowSleep] 0 0,
   claim_C2.2 obfOk sigOk 1000000 0 exRowSleep [exRowRun] (by decide)⟩

theorem statusOk_spec (row : Row) (h : statusOk row = true) :
    ∃ v, Row.get? row "status" = some v ∧ v ≠ Val.vStr "sleeping" := by
  unfold statusOk at h
  split at h
  · rename_i v hv
    exact ⟨v, hv, by simpa using h⟩
  · cases h

theorem startTimeOk_spec (row : Row) (h : startTimeOk row = true) :
    Row.get? row "start_time" = some Val.vNull ∨
      ∃ t, Row.get? row "start_time" = some (Val.vInt t) := by
  unfold startTimeOk at h
  split at h
  · rename_i hv
    exact Or.inl hv
  · rename_i t hv
    exact Or.inr ⟨t, hv⟩
  · cases h

/-- C3: given rows none of which is suppressed by the first-poll sleeping
rule (each has a non-sleeping `status` and a well-shaped `start_time`,
with per-row processed forms `ps`), whose cumulative estimated sizes
first exceed the byte budget `B` at row `k`, the normalizer returns
exactly the prefix of the first `k - 1` processed rows — never any other
subset. -/
theorem claim_C3 (obf : Val → Option String) (sig : String → Option String)
    (B : Nat) (wm : Option Int) (rows ps : List Row) (k : Nat)
    (hstat : ∀ row ∈ rows, statusOk row = true)
    (hstart : ∀ row ∈ rows, startTimeOk row = true)
    (hproc : rows.map (procRow obf sig) = ps.map some)
    (hk1 : 1 ≤ k) (hk : k ≤ rows.length)
    (hle : ((ps.map get_estimated_row_size_bytes).take (k - 1)).sum ≤ B)
    (hgt : ((ps.map get_estimated_row_size_bytes).take k).sum > B) :
    (normalize_queries_and_filter_rows obf sig wm 0 B rows).1 =
      some (ps.take (k - 1)) := by
  have hk2 : k - 1 + 1 = k := by omega
  refine normalize_prefix_truncation obf sig B rows ps wm 0 (k - 1)
    (fun row hr => statusOk_spec row (hstat row hr))
    (fun row hr => startTimeOk_spec row (hstart row hr))
    hproc (by omega) (by simpa using hle) ?_
  rw [hk2]
  simpa using hgt

/-- Witness for C3: with budget 200 and three processed rows of estimated
size 93 each (cumulative 93, 186, 279), exactly the first two are
returned. -/
theorem claim_C3_witness :
    (normalize_queries_and_filter_rows obfOk sigOk none 0 200
        [exRowRun, exRowRun2, exRowRun3]).1 =
      some ([exRowRunOut, exRowRun2Out, exRowRun3Out].take (3 - 1)) :=
  claim_C3 obfOk sigOk 200 none [exRowRun, exRowRun2, exRowRun3]
    [exRowRunOut, exRowRun2Out, exRowRun3Out] 3
    (by decide) (by decide) (by decide) (by decide) (by decide)
    (by decide) (by decide)

/-- C4: across any sequence of polls the watermark never decreases, and
after each poll it equals the running maximum (seeded with the starting
watermark) of the non-null `start_time` values of all rows the normalizer
considered across the polls so far — the rows counted by
`consideredRows`, which include the row that triggered a size-budget
cutoff and exclude rows suppressed by the sleeping rule or never
reached. -/
theorem claim_C4 (obf : Val → Option String) (sig : String → Option String)
    (mb : Nat) (wm0 : Option Int) (polls : List (List Row)) (p : List Row) :
    wmLe (runPolls obf sig mb wm0 polls)
        (runPolls obf sig mb wm0 (polls ++ [p])) ∧
    runPolls obf sig mb wm0 polls =
      List.foldl specMaxStep wm0 (pollsTimes obf sig mb wm0 polls) := by
  constructor
  · rw [runPolls_append]
    have h1 : runPolls obf sig mb (runPolls obf sig mb wm0 polls) [p] =
        (normalize_queries_and_filter_rows obf sig
          (runPolls obf sig mb wm0 polls) 0 mb p).2 := rfl
    rw [h1, normalize_wm_eq]
    exact wmLe_foldl _ _
  · rw [runPolls_eq_foldl, foldl_wmStep_eq_spec]

/-- C5: every row the normalizer outputs has none of the excluded keys,
no NULL value, its `text` equal to the obfuscation step's result for some
input row (the obfuscated statement, or the sentinel on failure — never
the raw text), and hex-string values in any present `query_hash` or
`query_plan_hash` field. -/
theorem claim_C5 (obf : Val → Option String) (sig : String → Option String)
    (wm : Option Int) (mb : Nat) (rows out : List Row) (wmf : Option Int)
    (h : normalize_queries_and_filter_rows obf sig wm 0 mb rows =
      (some out, wmf)) :
    ∀ r ∈ out,
      (∀ k ∈ dm_exec_requests_exclude_keys, Row.get? r k = none) ∧
      (∀ kv ∈ r, kv.2 ≠ Val.vNull) ∧
      (∃ src ∈ rows,
        Row.get? r "text" = some (Val.vStr (obfStep obf sig src).2)) ∧
      (∀ v, Row.get? r "query_hash" = some v →
        ∃ s, v = Val.vStr s ∧ isHexString s = true) ∧
      (∀ v, Row.get? r "query_plan_hash" = some v →
        ∃ s, v = Val.vStr s ∧ isHexString s = true) := by
  intro r hr
  obtain ⟨src, hsrc, hp⟩ := normalize_mem obf sig rows wm 0 mb out wmf h r hr
  unfold procRow at hp
  exact ⟨fun k hk => sanitize_excluded_absent _ _ _ hp k hk,
         fun kv hkv => sanitize_no_null _ _ _ hp kv hkv,
         ⟨src, hsrc, sanitize_text _ _ _ hp⟩,
         fun v hv => sanitize_hash_hex _ _ _ hp v hv,
         fun v hv => sanitize_plan_hash_hex _ _ _ hp v hv⟩

/-- Witness for C5: the sanitized form of a row with an excluded key, a
NULL column and a binary hash has the key dropped, the obfuscation step's
text, and a lowercase hex `query_hash`. -/
theorem claim_C5_witness :
    Row.get? exRowHashOut "sql_handle" = none ∧
    Row.get? exRowHashOut "text" =
      some (Val.vStr (obfStep obfOk sigOk exRowHash).2) ∧
    Row.get? exRowHashOut "query_hash" = some (Val.vStr "ab01") ∧
    isHexString "ab01" = true := by
  have h := claim_C5 obfOk sigOk none 1000000 [exRowHash] [exRowHashOut]
    (some 4) (by decide) exRowHashOut (by decide)
  refine ⟨h.1 "sql_handle" (by decide), ?_, by decide, by decide⟩
  obtain ⟨src, hsrc, htext⟩ := h.2.2.1
  have hs : src = exRowHash := by simpa using hsrc
  rw [hs] at htext
  exact htext

/-- Loop-body behavior when the obfuscation step fails on a
non-suppressed row: sentinel text substituted, watermark advanced, row
kept, no exception. -/
theorem normalize_sentinel_step (obf : Val → Option String)
    (sig : String → Option String)
    (wm : Option Int) (est mb : Nat) (row : Row) (rest : List Row)
    (wm2 : Option Int) (row2 : Row)
    (hfail : obfFails obf sig row)
    (h1 : ¬(wm = none ∧ Row.get? row "status" = some (Val.vStr "sleeping")))
    (h2 : ¬(wm = none ∧ Row.get? row "status" = none))
    (hset : set_last_activity wm row = some wm2)
    (hsan : sanitize_row row sentinelText = some row2)
    (hbud : est + get_estimated_row_size_bytes row2 ≤ mb) :
    normalize_queries_and_filter_rows obf sig wm est mb (row :: rest) =
      ((normalize_queries_and_filter_rows obf sig wm2
          (est + get_estimated_row_size_bytes row2) mb rest).1.map
        (fun out => row2 :: out),
       (normalize_queries_and_filter_rows obf sig wm2
          (est + get_estimated_row_size_bytes row2) mb rest).2) ∧
    Row.get? row2 "text" = some (Val.vStr sentinelText) := by
  have hob := obfStep_of_fails obf sig row hfail
  constructor
  · rw [normalize_queries_and_filter_rows, if_neg h1, if_neg h2, hob]
    simp only [hset, hsan]
    rw [if_neg (not_lt.mpr hbud)]
    cases hrest : normalize_queries_and_filter_rows obf sig wm2
        (est + get_estimated_row_size_bytes row2) mb rest with
    | mk o w =>
      cases o <;> simp
  · exact sanitize_text _ _ _ hsan

/-- C6: when the obfuscation step fails on a row (and the row is not
suppressed, its `start_time` is well-shaped and the budget is not yet
exceeded), the normalizer substitutes the fixed sentinel text as the
row's text and continues: the row still advances the watermark to `wm2`,
is still prepended to whatever the rest of the poll produces, and the
failure does not turn the result into the exception outcome. -/
theorem claim_C6 (obf : Val → Option String) (sig : String → Option String)
    (wm : Option Int) (est mb : Nat) (row : Row) (rest : List Row)
    (wm2 : Option Int) (row2 : Row)
    (hfail : obfFails obf sig row)
    (h1 : ¬(wm = none ∧ Row.get? row "status" = some (Val.vStr "sleeping")))
    (h2 : ¬(wm = none ∧ Row.get? row "status" = none))
    (hset : set_last_activity wm row = some wm2)
    (hsan : sanitize_row row sentinelText = some row2)
    (hbud : est + get_estimated_row_size_bytes row2 ≤ mb) :
    normalize_queries_and_filter_rows obf sig wm est mb (row :: rest) =
      ((normalize_queries_and_filter_rows obf sig wm2
          (est + get_estimated_row_size_bytes row2) mb rest).1.map
        (fun out => row2 :: out),
       (normalize_queries_and_filter_rows obf sig wm2
          (est + get_estimated_row_size_bytes row2) mb rest).2) ∧
    Row.get? row2 "text" = some (Val.vStr sentinelText) :=
  normalize_sentinel_step obf sig wm est mb row rest wm2 row2 hfail h1 h2
    hset hsan hbud

/-- Witness for C6: an always-failing obfuscator on the running example
row yields an output row whose text is the sentinel, with the watermark
advanced to its start time. -/
theorem claim_C6_witness :
    normalize_queries_and_filter_rows obfFail sigOk none 0 1000000
        [exRowRun] = (some [exRowRunFailOut], some 1) ∧
    Row.get? exRowRunFailOut "text" = some (Val.vStr sentinelText) := by
  have h := claim_C6 obfFail sigOk none 0 1000000 exRowRun [] (some 1)
    exRowRunFailOut
    (fun v s q hv hs hq => Option.noConfusion hs)
    (by decide) (by decide) (by decide) (by decide) (by decide)
  exact ⟨h.1.trans (by decide), h.2⟩

/-- C7: if either fetch raises, the poll aborts with no event sent, the
failure counter is incremented, the error path returns `[]`, and the
watermark is exactly what it was before the poll began. -/
theorem claim_C7 (obf : Val → Option String) (sig : String → Option String)
    (wm : Option Int) (inp : CollectInput)
    (h : inp.connections = none ∨ inp.activityRows = none) :
    collect_activity obf sig wm inp = ⟨wm, none, 1, true⟩ := by
  obtain ⟨c, a, s⟩ := inp
  simp only at h
  rcases h with h | h
  · subst h
    rfl
  · subst h
    cases c with
    | none => rfl
    | some conns => rfl

/-- Witness for C7: a failing connections fetch leaves the watermark at 5
and sends nothing. -/
theorem claim_C7_witness :
    collect_activity obfOk sigOk (some 5) ⟨none, some [], true⟩ =
      ⟨some 5, none, 1, true⟩ :=
  claim_C7 obfOk sigOk (some 5) ⟨none, some [], true⟩ (Or.inl rfl)

/-- C8: when the obfuscation step fails on a row that carried no
`query_signature` column, the sanitized output row carries no
`query_signature` field at all — the signature is only stored on a
successful obfuscation, never computed from the sentinel text. -/
theorem claim_C8 (obf : Val → Option String) (sig : String → Option String)
    (row r : Row)
    (hfail : obfFails obf sig row)
    (hq0 : Row.get? row "query_signature" = none)
    (h : procRow obf sig row = some r) :
    Row.get? r "query_signature" = none := by
  unfold procRow at h
  rw [obfStep_of_fails obf sig row hfail] at h
  exact sanitize_qs_absent _ _ _ h hq0

/-- Witness for C8: the failed-obfuscation output of the running example
row has no `query_signature`. -/
theorem claim_C8_witness :
    Row.get? exRowRunFailOut "query_signature" = none :=
  claim_C8 obfFail sigOk exRowRun exRowRunFailOut
    (fun v s q hv hs hq => Option.noConfusion hs)
    (by decide) (by decide)

/-- C9: when both fetches succeed and normalization completes but the
serialization/transmission step fails, the poll takes the same failure
path as a fetch failure (no event, counter incremented, `[]` returned),
but the job keeps the watermark `wm2` advanced during normalization
rather than rolling back to `wm` — the next poll's fetch filter is built
from `wm2`. -/
theorem claim_C9 (obf : Val → Option String) (sig : String → Option String)
    (wm : Option Int) (conns rows out : List Row) (wm2 : Option Int)
    (hn : normalize_queries_and_filter_rows obf sig wm 0 maxPayloadBytes
      rows = (some out, wm2)) :
    collect_activity obf sig wm ⟨some conns, some rows, false⟩ =
      ⟨wm2, none, 1, true⟩ := by
  unfold collect_activity
  simp [hn]

/-- Witness for C9: a failed send after normalizing the running example
row leaves the watermark advanced from unset to 1. -/
theorem claim_C9_witness :
    collect_activity obfOk sigOk none ⟨some [], some [exRowRun], false⟩ =
      ⟨some 1, none, 1, true⟩ :=
  claim_C9 obfOk sigOk none [] [exRowRun] [exRowRunOut] (some 1) (by decide)

/-- C10 counterexample. The claim states the normalizer reads `status`
unconditionally on every non-suppressed row, so that a row lacking the
key aborts the poll. But `status` is only read while the watermark is
unset: with the watermark already set to 0, a poll over a row with no
`status` column completes normally — the counter stays 0, the error
`return []` is not taken, and an event is sent. -/
theorem claim_C10_counterexample :
    (collect_activity obfOk sigOk (some 0)
        ⟨some [], some [exRowNoStatus], true⟩).errorIncr = 0 ∧
    (collect_activity obfOk sigOk (some 0)
        ⟨some [], some [exRowNoStatus], true⟩).retEmpty = false ∧
    ¬ (collect_activity obfOk sigOk (some 0)
        ⟨some [], some [exRowNoStatus], true⟩).eventSent = none := by
  decide

/-- C10, amended: the normalizer reads `start_time` on every
non-suppressed row, and `status` only while the watermark is unset. So:
(1) with the watermark unset, a leading row lacking `status` aborts the
poll via the top-level handler — counter incremented, `[]` returned, no
event; (2) a non-suppressed leading row lacking `start_time` aborts the
poll the same way, with the watermark unchanged; (3) a row lacking only
`text` is recovered per-row by the sentinel path and the poll completes
and sends the event. -/
theorem claim_C10 :
    (∀ (obf : Val → Option String) (sig : String → Option String)
      (conns : List Row) (rest : List Row) (b : Bool) (row : Row),
        Row.get? row "status" = none →
        collect_activity obf sig none ⟨some conns, some (row :: rest), b⟩ =
          ⟨none, none, 1, true⟩) ∧
    (∀ (obf : Val → Option String) (sig : String → Option String)
      (conns : List Row) (rest : List Row) (b : Bool) (row : Row)
      (wm : Option Int),
        ¬(wm = none ∧
          Row.get? row "status" = some (Val.vStr "sleeping")) →
        ¬(wm = none ∧ Row.get? row "status" = none) →
        Row.get? row "start_time" = none →
        collect_activity obf sig wm ⟨some conns, some (row :: rest), b⟩ =
          ⟨wm, none, 1, true⟩) ∧
    (∀ (obf : Val → Option String) (sig : String → Option String)
      (conns : List Row) (row row2 : Row) (wm wm2 : Option Int),
        Row.get? row "text" = none →
        ¬(wm = none ∧
          Row.get? row "status" = some (Val.vStr "sleeping")) →
        ¬(wm = none ∧ Row.get? row "status" = none) →
        set_last_activity wm row = some wm2 →
        sanitize_row row sentinelText = some row2 →
        get_estimated_row_size_bytes row2 ≤ maxPayloadBytes →
        collect_activity obf sig wm ⟨some conns, some [row], true⟩ =
          ⟨wm2, some ([row2], conns), 0, false⟩) := by
  refine ⟨?_, ?_, ?_⟩
  · intro obf sig conns rest b row h
    have h1 : ¬((none : Option Int) = none ∧
        Row.get? row "status" = some (Val.vStr "sleeping")) := by
      rintro ⟨_, hs⟩
      rw [h] at hs
      cases hs
    have hn : normalize_queries_and_filter_rows obf sig none 0
        maxPayloadBytes (row :: rest) = (none, none) := by
      rw [normalize_queries_and_filter_rows, if_neg h1, if_pos ⟨rfl, h⟩]
    unfold collect_activity
    simp [hn]
  · intro obf sig conns rest b row wm h1 h2 hst
    have hsl : set_last_activity wm (obfStep obf sig row).1 = none := by
      unfold set_last_activity
      rw [obfStep_fst_get?_ne obf sig row _ (by decide), hst]
    have hn : normalize_queries_and_filter_rows obf sig wm 0
        maxPayloadBytes (row :: rest) = (none, wm) := by
      rw [normalize_queries_and_filter_rows, if_neg h1, if_neg h2]
      simp only [hsl]
    unfold collect_activity
    simp [hn]
  · intro obf sig conns row row2 wm wm2 htext h1 h2 hset hsan hbud
    have hfail : obfFails obf sig row := by
      intro v s q hv
      rw [htext] at hv
      cases hv
    have h := normalize_sentinel_step obf sig wm 0 maxPayloadBytes row []
      wm2 row2 hfail h1 h2 hset hsan (by simpa using hbud)
    have hn : normalize_queries_and_filter_rows obf sig wm 0
        maxPayloadBytes [row] = (some [row2], wm2) := by
      rw [h.1]
      rfl
    unfold collect_activity
    simp [hn]

/-- Witness for C10: with the watermark unset a missing `status` aborts
the poll; a missing `start_time` aborts it leaving the watermark at 0;
a missing `text` alone is recovered and the event is sent. -/
theorem claim_C10_witness :
    collect_activity obfOk sigOk none
        ⟨some [], some [exRowNoStatus], true⟩ = ⟨none, none, 1, true⟩ ∧
    collect_activity obfOk sigOk (some 0)
        ⟨some [], some [exRowNoStart], true⟩ = ⟨some 0, none, 1, true⟩ ∧
    collect_activity obfOk sigOk none
        ⟨some [], some [exRowNoText], true⟩ =
      ⟨some 7, some ([exRowNoTextOut], []), 0, false⟩ :=
  ⟨claim_C10.1 obfOk sigOk [] [] true exRowNoStatus (by decide),
   claim_C10.2.1 obfOk sigOk [] [] true exRowNoStart (some 0)
     (by decide) (by decide) (by decide),
   claim_C10.2.2 obfOk sigOk [] exRowNoText exRowNoTextOut none (some 7)
     (by decide) (by decide) (by decide) (by decide) (by decide) (by decide)⟩
